import Mathlib

/-!
# String-analysis service: shallow embedding and verification

Shallow embedding of `src/main.go` (a string-analysis and query HTTP
service).  Go strings are modelled as their sequence of Unicode code
points (`List Char`); `strings.ToLower` / `unicode.IsSpace` are modelled
for the ASCII and Latin-1/Zs ranges the claims exercise; the SHA-256
digest (`crypto/sha256`, used only as an opaque store key) is a function
parameter of the definitions that need it.  Fallible operations return
`Except`; the store is an association list keyed by the digest.
-/

/-- A Go string viewed as its sequence of runes (Unicode code points). -/
abbrev Str := List Char

/-- Literal helper: the rune sequence of a Lean string literal. -/
def lit (s : String) : Str := s.toList

/-- Model of `unicode.ToLower` for one rune, as applied by
`strings.ToLower` (src/main.go:59, 294).  Faithful on ASCII, the range
every concrete input of the spec uses; non-ASCII simple case mappings
are out of the modelled fragment and are left unchanged. -/
def goToLower (c : Char) : Char :=
  if 'A' ≤ c ∧ c ≤ 'Z' then Char.ofNat (c.toNat + 32) else c

/-- The character class of Go's `regexp` `\s` (RE2 Perl class):
exactly `[\t\n\f\r ]` (src/main.go:76, 305, 312, 319, 332). -/
def re2Space (c : Char) : Bool :=
  c = '\t' || c = '\n' || c = Char.ofNat 12 || c = Char.ofNat 13 || c = ' '

/-- Model of `unicode.IsSpace` (White_Space property), used by
`strings.TrimSpace`: the RE2 class plus vertical tab, NEL, NBSP and the
Unicode Zs / line and paragraph separators. -/
def unicodeSpace (c : Char) : Bool :=
  re2Space c || c = Char.ofNat 11 || c = Char.ofNat 0x85 || c = Char.ofNat 0xA0 ||
    c = Char.ofNat 0x1680 || (0x2000 ≤ c.toNat && c.toNat ≤ 0x200A) ||
    c = Char.ofNat 0x2028 || c = Char.ofNat 0x2029 || c = Char.ofNat 0x202F ||
    c = Char.ofNat 0x205F || c = Char.ofNat 0x3000

/-- `strings.TrimSpace`: drop leading and trailing Unicode whitespace. -/
def trimSpace (s : Str) : Str :=
  (((s.dropWhile unicodeSpace).reverse.dropWhile unicodeSpace)).reverse

/-- ASCII digit class (`\d` in RE2). -/
def isDigit (c : Char) : Bool := '0' ≤ c && c ≤ '9'

/-- ASCII word-character class (`\w` in RE2), used for `\b`. -/
def isWordChar (c : Char) : Bool :=
  isDigit c || ('a' ≤ c && c ≤ 'z') || ('A' ≤ c && c ≤ 'Z') || c = '_'

/-- ASCII letter class (`[a-zA-Z]` in src/main.go:319). -/
def isAsciiLetter (c : Char) : Bool :=
  ('a' ≤ c && c ≤ 'z') || ('A' ≤ c && c ≤ 'Z')

/-- `charFreqMap` (src/main.go:50-56): one `map[string]int` update
`m[string(r)]++`.  Every key the Go code ever inserts is the string of a
single rune, so the map is modelled keyed by that rune. -/
def bump (m : List (Char × Nat)) (c : Char) : List (Char × Nat) :=
  match m with
  | [] => [(c, 1)]
  | (k, v) :: rest => if k = c then (k, v + 1) :: rest else (k, v) :: bump rest c

/-- `charFreqMap` (src/main.go:50-56): rune-frequency map of a string. -/
def charFreqMap (s : Str) : List (Char × Nat) := s.foldl bump []

/-- The two-pointer loop of `isPalindrome` (src/main.go:60-67), with the
loop expressed on explicit fuel (the list length bounds the iteration
count, since `j - i` shrinks by two each round). -/
def palinAux (rs : Str) : Nat → Nat → Nat → Bool
  | 0, _, _ => true
  | fuel + 1, i, j =>
    if i < j then
      if rs.getD i (Char.ofNat 0) = rs.getD j (Char.ofNat 0) then
        palinAux rs fuel (i + 1) (j - 1)
      else false
    else true

/-- `isPalindrome` (src/main.go:58-69): lowercase the string, then walk
indices `0` and `len-1` inward comparing runes. -/
def isPalindrome (s : Str) : Bool :=
  let rs := s.map goToLower
  palinAux rs rs.length 0 (rs.length - 1)

/-- `regexp.MustCompile(\s+).Split(trimmed, -1)` (src/main.go:76): the
parts of a string around each maximal run of `\s` characters (a run at
either boundary contributes an empty part, as Go's `Split` does). -/
def splitWS : Str → List Str
  | [] => [[]]
  | c :: cs =>
    if re2Space c then
      match cs with
      | [] => [] :: splitWS cs
      | d :: _ => if re2Space d then splitWS cs else [] :: splitWS cs
    else
      match splitWS cs with
      | t :: ts => (c :: t) :: ts
      | [] => [[c]]

/-- `wordCount` (src/main.go:71-78): trim (Unicode whitespace), return 0
for an empty remainder, else the number of `\s+`-split parts. -/
def wordCount (s : Str) : Nat :=
  let trimmed := trimSpace s
  if trimmed = [] then 0 else (splitWS trimmed).length

/-- `Properties` (src/main.go:18-25).  `Length` counts runes. -/
structure Properties where
  Length : Nat
  IsPalindrome : Bool
  UniqueCharacters : Nat
  WordCount : Nat
  SHA256Hash : Str
  CharacterFrequencyMap : List (Char × Nat)
deriving DecidableEq

/-- `analyzeString` (src/main.go:80-90), with the SHA-256 digest
(`computeHash`, src/main.go:45-48) supplied as the parameter `hash`. -/
def analyzeString (hash : Str → Str) (s : Str) : Properties :=
  let freq := charFreqMap s
  { Length := s.length
    IsPalindrome := isPalindrome s
    UniqueCharacters := freq.length
    WordCount := wordCount s
    SHA256Hash := hash s
    CharacterFrequencyMap := freq }

/-- `StoredString` (src/main.go:27-32). -/
structure StoredString where
  ID : Str
  Value : Str
  Properties : Properties
  CreatedAt : Str
deriving DecidableEq

/-! ## The store and the creation / deletion paths -/

/-- The global `store.m : map[string]StoredString` (src/main.go:38-43),
as an association list keyed by the id (the digest of the value). -/
abbrev Store := List (Str × StoredString)

/-- Go map assignment `m[id] = item`: replace the binding if the key is
present, append it otherwise. -/
def setKey (st : Store) (k : Str) (v : StoredString) : Store :=
  match st with
  | [] => [(k, v)]
  | (k', v') :: rest => if k' = k then (k, v) :: rest else (k', v') :: setKey rest k v

/-- Go map membership `_, exists := m[id]`. -/
def keyIn (st : Store) (k : Str) : Bool := st.any (fun kv => kv.1 == k)

/-- Go `delete(m, id)`. -/
def removeKey (st : Store) (k : Str) : Store := st.filter (fun kv => !(kv.1 == k))

/-- The shapes a decoded JSON `value` field can take that
`validateCreateBody` distinguishes (src/main.go:98-108): absent,
a string, or any non-string JSON value. -/
inductive JVal where
  | jstr (s : Str)
  | jother
deriving DecidableEq

/-- The error outcomes of the creation path (src/main.go:98-133). -/
inductive CreateError where
  | missingValue
  | notAString
  | alreadyExists
deriving DecidableEq

/-- `validateCreateBody` (src/main.go:98-108). -/
def validateCreateBody : Option JVal → Except CreateError Str
  | none => .error .missingValue
  | some (.jstr s) => .ok s
  | some .jother => .error .notAString

/-- The core of `postStringsHandler` (src/main.go:110-145) in its
sequential reading: validate, analyze, check the key, insert if absent.
`hash` stands for `computeHash`; `now` for the RFC3339 timestamp. -/
def createRecord (hash : Str → Str) (st : Store) (body : Option JVal) (now : Str) :
    Store × Except CreateError StoredString :=
  match validateCreateBody body with
  | .error e => (st, .error e)
  | .ok val =>
    let props := analyzeString hash val
    let id := props.SHA256Hash
    if keyIn st id then (st, .error .alreadyExists)
    else
      let item : StoredString := ⟨id, val, props, now⟩
      (setKey st id item, .ok item)

/-- The core of `deleteStringHandler` (src/main.go:458-484): re-derive
the id from the value, remove the binding when present. -/
def deleteRecord (hash : Str → Str) (st : Store) (v : Str) : Store × Bool :=
  let id := hash v
  if keyIn st id then (removeKey st id, true) else (st, false)

/-! ## Interleaved semantics of the creation path (claim C2)

`postStringsHandler` takes the read lock for the existence check
(src/main.go:127-129), releases it, and only then takes the write lock
for the insert (src/main.go:141-143).  Each lock-protected region is one
atomic step of a request thread; between the two steps another request
may run. -/

/-- The control point of one in-flight create request for value `v`:
not yet checked; checked (with the observed existence bit); finished
(`true` = responded 201 Created, `false` = responded 409 Conflict). -/
inductive ThreadState where
  | ready
  | checked (found : Bool)
  | finished (created : Bool)
deriving DecidableEq

/-- One atomic step of a create request for value `v`:
`ready → checked` is the read-locked existence check
(src/main.go:127-129); `checked false → finished true` is the
write-locked insert plus the 201 response (src/main.go:141-144);
`checked true → finished false` is the 409 response (src/main.go:131). -/
def threadStep (hash : Str → Str) (v now : Str) (st : Store) :
    ThreadState → Store × ThreadState
  | .ready => (st, .checked (keyIn st (hash v)))
  | .checked true => (st, .finished false)
  | .checked false =>
    let props := analyzeString hash v
    let item : StoredString := ⟨props.SHA256Hash, v, props, now⟩
    (setKey st props.SHA256Hash item, .finished true)
  | .finished b => (st, .finished b)

/-- Run two concurrent create requests for the same value under a
schedule: `false` steps the first thread, `true` the second. -/
def runSched (hash : Str → Str) (v now : Str) :
    List Bool → Store × ThreadState × ThreadState → Store × ThreadState × ThreadState
  | [], s => s
  | b :: rest, (st, t0, t1) =>
    if b then
      let p := threadStep hash v now st t1
      runSched hash v now rest (p.1, t0, p.2)
    else
      let p := threadStep hash v now st t0
      runSched hash v now rest (p.1, p.2, t1)

/-! ## Structured filters (`getAllStringsHandler`, src/main.go:183-291) -/

/-- The five optional predicates a `GET /strings` query can carry
(src/main.go:189-195). -/
structure QueryFilter where
  is_palindrome : Option Bool := none
  min_length : Option Int := none
  max_length : Option Int := none
  word_count : Option Int := none
  contains_character : Option Char := none
deriving DecidableEq

/-- The `containsCharacter` loop of the structured path
(src/main.go:252-263): scan the frequency map's keys for one whose
first rune equals the filter rune.  Every key is the string of a single
rune, so the key's first rune is the key itself. -/
def containsCharCheck (m : List (Char × Nat)) (c : Char) : Bool :=
  m.any (fun kv => kv.1 == c)

/-- The per-record filter evaluation of `getAllStringsHandler`
(src/main.go:238-266): the record matches when every present field's
check passes. -/
def matchesStructured (f : QueryFilter) (item : StoredString) : Bool :=
  (match f.is_palindrome with
   | some b => item.Properties.IsPalindrome == b
   | none => true) &&
  (match f.min_length with
   | some mn => !((item.Properties.Length : Int) < mn)
   | none => true) &&
  (match f.max_length with
   | some mx => !((item.Properties.Length : Int) > mx)
   | none => true) &&
  (match f.word_count with
   | some wc => (item.Properties.WordCount : Int) == wc
   | none => true) &&
  (match f.contains_character with
   | some c => containsCharCheck item.Properties.CharacterFrequencyMap c
   | none => true)

/-! ## The natural-language translator (`parseNaturalLanguage`,
src/main.go:293-352)

The four regular expressions of the source are embedded as explicit
leftmost-match scanners.  RE2 semantics used: a match is searched at
each start position from the left; `\s+` / `\d+` take the maximal run
(no shorter run can be followed by the next token, the classes being
disjoint from what follows); alternatives are tried in written order. -/

/-- Does `p` begin the list (a literal prefix match)? -/
def startsWithL : Str → Str → Bool
  | [], _ => true
  | _ :: _, [] => false
  | a :: as, b :: bs => a == b && startsWithL as bs

/-- Drop a literal prefix, or fail. -/
def dropLit (p s : Str) : Option Str :=
  if startsWithL p s then some (s.drop p.length) else none

/-- `strings.Contains`: some suffix begins with the needle. -/
def containsSub (needle : Str) : Str → Bool
  | [] => startsWithL needle []
  | c :: cs => startsWithL needle (c :: cs) || containsSub needle cs

/-- Numeric value of a captured `\d+` group. -/
def digitsVal (d : Str) : Nat := d.foldl (fun a c => 10 * a + (c.toNat - 48)) 0

/-- `strconv.Atoi` on a `\d+` capture: the value, unless it overflows a
64-bit signed int (then Atoi reports `ErrRange` and the rule is skipped,
src/main.go:307-310). -/
def goAtoiDigits (d : Str) : Option Nat :=
  if digitsVal d ≤ 9223372036854775807 then some (digitsVal d) else none

/-- Go `int` wrap-around of a non-negative sum (`n + 1` at
src/main.go:309 can overflow when `n` is the maximal int). -/
def wrap64 (n : Int) : Int := (n + 2 ^ 63) % 2 ^ 64 - 2 ^ 63

/-- Try `longer than\s+(\d+)` anchored at the start of `s`
(src/main.go:305): the literal, one-or-more `\s`, then the maximal
digit run as capture. -/
def tryLongerAt (s : Str) : Option Str :=
  match dropLit (lit "longer than") s with
  | none => none
  | some rest =>
    let sp := rest.takeWhile re2Space
    let d := (rest.dropWhile re2Space).takeWhile isDigit
    if sp ≠ [] && d ≠ [] then some d else none

/-- Leftmost match of `longer than\s+(\d+)`: the captured digits. -/
def findLonger : Str → Option Str
  | [] => none
  | c :: cs => (tryLongerAt (c :: cs)).orElse (fun _ => findLonger cs)

/-- Try `longer than\s+(\d+)\s+characters` anchored at the start of `s`
(src/main.go:312). -/
def tryLongerCharsAt (s : Str) : Option Str :=
  match dropLit (lit "longer than") s with
  | none => none
  | some rest =>
    let sp := rest.takeWhile re2Space
    let r1 := rest.dropWhile re2Space
    let d := r1.takeWhile isDigit
    let r2 := r1.dropWhile isDigit
    let sp2 := r2.takeWhile re2Space
    let r3 := r2.dropWhile re2Space
    if sp ≠ [] && d ≠ [] && sp2 ≠ [] && startsWithL (lit "characters") r3 then
      some d
    else none

/-- Leftmost match of `longer than\s+(\d+)\s+characters`. -/
def findLongerChars : Str → Option Str
  | [] => none
  | c :: cs => (tryLongerCharsAt (c :: cs)).orElse (fun _ => findLongerChars cs)

/-- Try one alternative `<literal>\s+([a-zA-Z])` of the contains regex
(src/main.go:319) anchored at the start of `s`. -/
def tryContainsLit (l s : Str) : Option Char :=
  match dropLit l s with
  | none => none
  | some rest =>
    let sp := rest.takeWhile re2Space
    match rest.dropWhile re2Space with
    | c :: _ => if sp ≠ [] && isAsciiLetter c then some c else none
    | [] => none

/-- The four alternatives of the contains regex in written order
(src/main.go:319-327): whichever group matched, the handler stores its
single letter. -/
def tryContainsAt (s : Str) : Option Char :=
  (tryContainsLit (lit "containing the letter") s).orElse fun _ =>
    (tryContainsLit (lit "contain the letter") s).orElse fun _ =>
      (tryContainsLit (lit "containing") s).orElse fun _ =>
        tryContainsLit (lit "contain") s

/-- Leftmost match of the contains regex: the captured letter. -/
def findContains : Str → Option Char
  | [] => none
  | c :: cs => (tryContainsAt (c :: cs)).orElse (fun _ => findContains cs)

/-- Try `\b(\d+)\s+word` (src/main.go:332) anchored at the start of the
remaining text, `prev` being the character just before it (`none` at the
start of the string): a word boundary, the maximal digit run, one-or-more
`\s`, then the literal `word`. -/
def tryNWordAt (prev : Option Char) (s : Str) : Option Str :=
  match s with
  | [] => none
  | c :: cs =>
    if (match prev with | none => true | some p => !isWordChar p) && isDigit c then
      let d := c :: cs.takeWhile isDigit
      let rest := cs.dropWhile isDigit
      let sp := rest.takeWhile re2Space
      let rest2 := rest.dropWhile re2Space
      if sp ≠ [] && startsWithL (lit "word") rest2 then some d else none
    else none

/-- Leftmost match of `\b(\d+)\s+word`: the captured digits. -/
def findNWord (prev : Option Char) : Str → Option Str
  | [] => none
  | c :: cs => (tryNWordAt prev (c :: cs)).orElse (fun _ => findNWord (some c) cs)

/-- The `parsed` map the translator builds (src/main.go:298): its five
possible keys as optional fields (`max_length` is never written by any
rule but is read by the conflict check, src/main.go:343-350). -/
structure ParsedFilters where
  word_count : Option Int := none
  is_palindrome : Option Bool := none
  min_length : Option Int := none
  max_length : Option Int := none
  contains_character : Option Str := none
deriving DecidableEq

/-- `len(parsed) == 0` (src/main.go:340). -/
def parsedIsEmpty (p : ParsedFilters) : Bool :=
  p.word_count.isNone && p.is_palindrome.isNone && p.min_length.isNone &&
    p.max_length.isNone && p.contains_character.isNone

/-- The translator's failure modes (src/main.go:296, 341, 345). -/
inductive ParseError where
  | emptyQuery
  | unparseable
  | conflictingFilters
deriving DecidableEq

/-- The lowercased, trimmed query text the rules run on
(src/main.go:294). -/
def normQ (query : Str) : Str := (trimSpace query).map goToLower

/-- The rule pass of `parseNaturalLanguage` (src/main.go:298-339),
applied to the already lowercased, trimmed text: each rule writes its
key into the accumulating map. -/
def buildParsed (q : Str) : ParsedFilters :=
  let p : ParsedFilters := {}
  let p := if containsSub (lit "single word") q || containsSub (lit "single-word") q ||
      containsSub (lit "one word") q then
      { p with word_count := some 1 } else p
  let p := if containsSub (lit "palindrom") q then { p with is_palindrome := some true } else p
  let p := match findLonger q with
    | some d =>
      match goAtoiDigits d with
      | some n => { p with min_length := some (wrap64 ((n : Int) + 1)) }
      | none => p
    | none => p
  let p := match findLongerChars q with
    | some d =>
      match goAtoiDigits d with
      | some n => { p with min_length := some (wrap64 ((n : Int) + 1)) }
      | none => p
    | none => p
  let p := match findContains q with
    | some c => { p with contains_character := some [goToLower c] }
    | none => p
  let p := if containsSub (lit "first vowel") q || containsSub (lit "first vowel a") q then
      { p with contains_character := some (lit "a") } else p
  let p := if p.word_count.isNone then
      match findNWord none q with
      | some d =>
        match goAtoiDigits d with
        | some n => { p with word_count := some (n : Int) }
        | none => p
      | none => p
    else p
  p

/-- `parseNaturalLanguage` (src/main.go:293-352): empty text fails as
`emptyQuery`; an empty rule result fails as `unparseable`; a present
`min_length` above a present `max_length` fails as
`conflictingFilters`; otherwise the parsed filters are returned. -/
def parseNaturalLanguage (query : Str) : Except ParseError ParsedFilters :=
  let q := normQ query
  if q = [] then .error .emptyQuery
  else
    let p := buildParsed q
    if parsedIsEmpty p then .error .unparseable
    else
      match p.min_length, p.max_length with
      | some mn, some mx => if mn > mx then .error .conflictingFilters else .ok p
      | _, _ => .ok p

/-- The per-record evaluation of `applyParsedFilters`
(src/main.go:354-425) against one record (the translator only ever
stores `int` word counts and lengths, `bool` palindrome flags and
string contains-characters, so those type arms are the ones embedded;
the contains check is `strings.EqualFold` on the single-rune key). -/
def matchesParsed (p : ParsedFilters) (item : StoredString) : Bool :=
  (match p.is_palindrome with
   | some b => item.Properties.IsPalindrome == b
   | none => true) &&
  (match p.word_count with
   | some wc => (item.Properties.WordCount : Int) == wc
   | none => true) &&
  (match p.min_length with
   | some mn => !((item.Properties.Length : Int) < mn)
   | none => true) &&
  (match p.max_length with
   | some mx => !((item.Properties.Length : Int) > mx)
   | none => true) &&
  (match p.contains_character with
   | some chStr =>
     if chStr = [] then false
     else item.Properties.CharacterFrequencyMap.any
       (fun kv => [goToLower kv.1] == chStr.map goToLower)
   | none => true)

/-- `applyParsedFilters` (src/main.go:354-425): the matching records. -/
def applyParsedFilters (st : Store) (p : ParsedFilters) : List StoredString :=
  (st.map Prod.snd).filter (matchesParsed p)

/-- The core of `naturalLanguageHandler` (src/main.go:427-456): a failed
translation is returned as the error; a successful one is applied to
the store. -/
def nlQuery (st : Store) (query : Str) : Except ParseError (List StoredString) :=
  match parseNaturalLanguage query with
  | .error e => .error e
  | .ok p => .ok (applyParsedFilters st p)

deriving instance DecidableEq for Except

example :
    parseNaturalLanguage (lit "strings longer than 5 characters containing the letter r") =
      .ok { min_length := some 6, contains_character := some (lit "r") } := by decide
example : parseNaturalLanguage (lit "") = .error .emptyQuery := by decide
example : parseNaturalLanguage (lit "   ") = .error .emptyQuery := by decide
example : parseNaturalLanguage (lit "xyz123") = .error .unparseable := by decide
example :
    parseNaturalLanguage (lit "all single word palindromic strings") =
      .ok { word_count := some 1, is_palindrome := some true } := by decide
example :
    parseNaturalLanguage (lit "strings with 3 words") =
      .ok { word_count := some 3 } := by decide
example :
    parseNaturalLanguage (lit "longer than 7 and longer than 3") =
      .ok { min_length := some 8 } := by decide
example :
    parseNaturalLanguage (lit "longer than 99999999999999999999") =
      .error .unparseable := by decide
/-! ## Specification-side definitions

These follow the spec's words, for comparison with the definitions
translated from the source. -/

/-- The number of maximal runs of `p`-characters in a string. -/
def countRuns (p : Char → Bool) : Str → Nat
  | [] => 0
  | c :: cs =>
    if p c then
      match cs with
      | [] => 1
      | d :: _ => if p d then countRuns p cs else 1 + countRuns p cs
    else countRuns p cs

/-- Word count as §4.1 of the spec words it: trim, then count the
tokens delimited by runs of whitespace, "where whitespace includes
space, tab, newline, and Unicode whitespace". -/
def specWordCount (s : Str) : Nat :=
  let trimmed := trimSpace s
  if trimmed = [] then 0 else countRuns (fun c => !unicodeSpace c) trimmed

/-- The closed form of the `min_length` key `buildParsed` produces: the
value of the first `longer than\s+(\d+)\s+characters` match when that
rule fires (it runs second and overwrites, src/main.go:312-318), else
of the first `longer than\s+(\d+)` match (src/main.go:305-311). -/
def minLengthRule (r : Option Str) : Option Int :=
  match r with
  | some d => (goAtoiDigits d).map (fun n => wrap64 ((n : Int) + 1))
  | none => none

def minF (q : Str) : Option Int :=
  match minLengthRule (findLongerChars q) with
  | some v => some v
  | none => minLengthRule (findLonger q)

/-- The closed form of the `word_count` key: the single-word phrases
set 1 (src/main.go:299-301); otherwise the first `\b(\d+)\s+word` match
sets its value (src/main.go:331-339). -/
def wcF (q : Str) : Option Int :=
  if containsSub (lit "single word") q || containsSub (lit "single-word") q ||
      containsSub (lit "one word") q then some 1
  else
    match findNWord none q with
    | some d => (goAtoiDigits d).map (fun n => (n : Int))
    | none => none

/-- The closed form of the `is_palindrome` key (src/main.go:302-304). -/
def palF (q : Str) : Option Bool :=
  if containsSub (lit "palindrom") q then some true else none

/-- The closed form of the `contains_character` key: the first-vowel
shortcut overwrites (src/main.go:328-330) the contains regex's letter
(src/main.go:319-327). -/
def containsF (q : Str) : Option Str :=
  if containsSub (lit "first vowel") q || containsSub (lit "first vowel a") q then
    some (lit "a")
  else (findContains q).map (fun c => [goToLower c])

/-- Did the translator fail with `conflictingFilters`? -/
def isConflictErr (r : Except ParseError ParsedFilters) : Bool :=
  match r with
  | .error .conflictingFilters => true
  | _ => false

/-- Is an `Except` result an error? -/
def isErrRes {ε α : Type} (r : Except ε α) : Bool :=
  match r with
  | .error _ => true
  | .ok _ => false

/-- The store states reachable through the service's mutating
operations: the empty initial map, creation and deletion. -/
inductive Reachable (hash : Str → Str) : Store → Prop where
  | init : Reachable hash []
  | create (st : Store) (body : Option JVal) (now : Str) :
      Reachable hash st → Reachable hash (createRecord hash st body now).1
  | remove (st : Store) (v : Str) :
      Reachable hash st → Reachable hash (deleteRecord hash st v).1

example : wordCount (lit "  a   b  ") = 2 := by decide
example : wordCount (lit "   ") = 0 := by decide
example : isPalindrome (lit "Racecar") = true := by decide
example : isPalindrome (lit "hello") = false := by decide
example : charFreqMap (lit "banana") = [('b',1),('a',3),('n',2)] := by decide

/-! ## Lemmas about the character-frequency map -/

lemma sum_bump (m : List (Char × Nat)) (c : Char) :
    ((bump m c).map Prod.snd).sum = (m.map Prod.snd).sum + 1 := by
  induction m with
  | nil => simp [bump]
  | cons kv rest ih =>
    obtain ⟨k, v⟩ := kv
    by_cases h : k = c <;> simp [bump, h, ih] <;> omega

lemma sum_foldl_bump (s : Str) :
    ∀ m : List (Char × Nat),
      ((s.foldl bump m).map Prod.snd).sum = (m.map Prod.snd).sum + s.length := by
  induction s with
  | nil => intro m; simp
  | cons c cs ih =>
    intro m
    simp only [List.foldl_cons, List.length_cons, ih (bump m c), sum_bump]
    omega

lemma mem_keys_bump (m : List (Char × Nat)) (c a : Char) :
    a ∈ (bump m c).map Prod.fst ↔ a ∈ m.map Prod.fst ∨ a = c := by
  induction m with
  | nil => simp [bump]
  | cons kv rest ih =>
    obtain ⟨k, v⟩ := kv
    by_cases h : k = c
    · subst h; simp [bump]; tauto
    · simp [bump, h, ih]; tauto

lemma nodup_keys_bump (m : List (Char × Nat)) (c : Char)
    (h : (m.map Prod.fst).Nodup) : ((bump m c).map Prod.fst).Nodup := by
  induction m with
  | nil => simp [bump]
  | cons kv rest ih =>
    obtain ⟨k, v⟩ := kv
    simp only [List.map_cons, List.nodup_cons] at h
    by_cases hk : k = c
    · subst hk; simpa [bump] using h
    · simp only [bump, if_neg hk, List.map_cons, List.nodup_cons]
      refine ⟨?_, ih h.2⟩
      rw [mem_keys_bump]
      rintro (hm | hm)
      · exact h.1 hm
      · exact hk hm

lemma nodup_keys_foldl_bump (s : Str) :
    ∀ m : List (Char × Nat), (m.map Prod.fst).Nodup →
      (((s.foldl bump m)).map Prod.fst).Nodup := by
  induction s with
  | nil => intro m h; simpa using h
  | cons c cs ih => intro m h; exact ih (bump m c) (nodup_keys_bump m c h)

lemma mem_keys_foldl_bump (s : Str) :
    ∀ (m : List (Char × Nat)) (a : Char),
      (a ∈ (s.foldl bump m).map Prod.fst ↔ a ∈ m.map Prod.fst ∨ a ∈ s) := by
  induction s with
  | nil => intro m a; simp
  | cons c cs ih =>
    intro m a
    simp only [List.foldl_cons, ih (bump m c) a, mem_keys_bump, List.mem_cons]
    tauto

lemma charFreqMap_keys_nodup (s : Str) : ((charFreqMap s).map Prod.fst).Nodup := by
  simpa [charFreqMap] using nodup_keys_foldl_bump s [] (by simp)

lemma mem_keys_charFreqMap (s : Str) (a : Char) :
    a ∈ (charFreqMap s).map Prod.fst ↔ a ∈ s := by
  simpa [charFreqMap] using mem_keys_foldl_bump s [] a
example :
    (runSched (fun s => s) (lit "x") (lit "t") [false, true, false, true]
      ([], .ready, .ready)).2 = (.finished true, .finished true) := by decide
example :
    (runSched (fun s => s) (lit "x") (lit "t") [false, false, true, true]
      ([], .ready, .ready)).2 = (.finished true, .finished false) := by decide

/-! ## Claim C8: frequency values sum to the code-point count -/

/-- C8: for every string, the sum of all values of
`characterFrequency` equals `length`, the count of Unicode code points
of the string (src/main.go:50-56, 80-90). -/
theorem claim_C8 (hash : Str → Str) (s : Str) :
    (((analyzeString hash s).CharacterFrequencyMap).map Prod.snd).sum =
      (analyzeString hash s).Length := by
  simp [analyzeString, charFreqMap, sum_foldl_bump]

/-! ## Claim C10: `uniqueCharacters` counts the distinct frequency keys -/

lemma analyze_unique_eq_dedup (hash : Str → Str) (s : Str) :
    (analyzeString hash s).UniqueCharacters =
      (((analyzeString hash s).CharacterFrequencyMap).map Prod.fst).dedup.length := by
  simp only [analyzeString]
  rw [List.dedup_eq_self.mpr (charFreqMap_keys_nodup s), List.length_map]

lemma mem_setKey {k : Str} {v : StoredString} {kv : Str × StoredString} :
    ∀ st : Store, kv ∈ setKey st k v → kv = (k, v) ∨ kv ∈ st := by
  intro st
  induction st with
  | nil => intro h; simpa [setKey] using h
  | cons hd rest ih =>
    intro h
    obtain ⟨k', v'⟩ := hd
    by_cases hk : k' = k
    · subst hk
      have h2 : kv ∈ (k', v) :: rest := by simpa [setKey] using h
      rcases List.mem_cons.mp h2 with h3 | h3
      · exact Or.inl h3
      · exact Or.inr (List.mem_cons_of_mem _ h3)
    · have h2 : kv ∈ (k', v') :: setKey rest k v := by simpa [setKey, hk] using h
      rcases List.mem_cons.mp h2 with h3 | h3
      · exact Or.inr (by simp [h3])
      · rcases ih h3 with h4 | h4
        · exact Or.inl h4
        · exact Or.inr (List.mem_cons_of_mem _ h4)

/-- C10: in every reachable store state, every stored record's
`uniqueCharacters` equals the number of distinct keys of its
`characterFrequency` map (records are only ever produced by
`analyzeString`, src/main.go:80-90, 125-142). -/
theorem claim_C10 (hash : Str → Str) (st : Store) (h : Reachable hash st)
    (k : Str) (r : StoredString) (hmem : (k, r) ∈ st) :
    r.Properties.UniqueCharacters =
      ((r.Properties.CharacterFrequencyMap).map Prod.fst).dedup.length := by
  induction h generalizing k r with
  | init => simp at hmem
  | create st' body now _ ih =>
    rcases hv : validateCreateBody body with e | val
    · simp only [createRecord, hv] at hmem
      exact ih k r hmem
    · cases hex : keyIn st' (analyzeString hash val).SHA256Hash
      · simp only [createRecord, hv, hex, Bool.false_eq_true, if_false] at hmem
        rcases mem_setKey _ hmem with heq | hold
        · have : r = ⟨(analyzeString hash val).SHA256Hash, val,
              analyzeString hash val, now⟩ := congrArg Prod.snd heq
          subst this
          exact analyze_unique_eq_dedup hash val
        · exact ih k r hold
      · simp only [createRecord, hv, hex, if_true] at hmem
        exact ih k r hmem
  | remove st' v _ ih =>
    cases hex : keyIn st' (hash v)
    · simp only [deleteRecord, hex, Bool.false_eq_true, if_false] at hmem
      exact ih k r hmem
    · simp only [deleteRecord, hex, if_true] at hmem
      exact ih k r (List.mem_of_mem_filter hmem)

/-- C10 at a concrete reachable store: the record created for "ab" has
`uniqueCharacters` equal to its two distinct frequency keys. -/
theorem claim_C10_witness :
    (⟨lit "ab", lit "ab", analyzeString (fun x => x) (lit "ab"), lit "t"⟩ :
        StoredString).Properties.UniqueCharacters =
      (((⟨lit "ab", lit "ab", analyzeString (fun x => x) (lit "ab"), lit "t"⟩ :
        StoredString).Properties.CharacterFrequencyMap).map Prod.fst).dedup.length :=
  claim_C10 (fun x => x)
    (createRecord (fun x => x) [] (some (.jstr (lit "ab"))) (lit "t")).1
    (Reachable.create [] (some (.jstr (lit "ab"))) (lit "t") Reachable.init)
    (lit "ab") _ (by decide)

/-! ## Claim C1: the structured `contains_character` filter

The spec says the structured filter compares case-insensitively; the
loop at src/main.go:252-263 compares the key's rune to the filter rune
with `==`, which is case-sensitive.  The natural-language path
(src/main.go:410, `strings.EqualFold`) folds case; the structured path
does not. -/

lemma containsCharCheck_iff (s : Str) (c : Char) :
    containsCharCheck (charFreqMap s) c = true ↔ c ∈ s := by
  rw [containsCharCheck, List.any_eq_true]
  constructor
  · rintro ⟨kv, hkv, hbeq⟩
    have hfst : kv.1 = c := by simpa using hbeq
    rw [← mem_keys_charFreqMap s c, ← hfst]
    exact List.mem_map_of_mem Prod.fst hkv
  · intro hc
    rcases List.mem_map.mp ((mem_keys_charFreqMap s c).mpr hc) with ⟨kv, hkv, hfst⟩
    exact ⟨kv, hkv, by simp [hfst]⟩

/-- C1 (amended): a structured filter whose `contains_character` is the
rune `c` matches a stored record exactly when the record's value
contains `c` itself — the key comparison is case-sensitive; and on the
record for "banana" a filter for 'a' matches while a filter for 'A'
does not. -/
theorem claim_C1_amended :
    (∀ (hash : Str → Str) (now s : Str) (c : Char),
        matchesStructured { contains_character := some c }
          ⟨hash s, s, analyzeString hash s, now⟩ = true ↔ c ∈ s) ∧
    matchesStructured { contains_character := some 'a' }
      ⟨lit "banana", lit "banana", analyzeString (fun x => x) (lit "banana"),
        lit "t"⟩ = true ∧
    matchesStructured { contains_character := some 'A' }
      ⟨lit "banana", lit "banana", analyzeString (fun x => x) (lit "banana"),
        lit "t"⟩ = false := by
  refine ⟨fun hash now s c => ?_, by decide, by decide⟩
  simp only [matchesStructured, analyzeString, Bool.true_and]
  exact containsCharCheck_iff s c

/-- C1, as stated, fails on the record for "banana": its frequency map
does contain a key equal to 'A' under case-insensitive comparison, yet
the structured filter for 'A' does not match the record. -/
theorem claim_C1_counterexample :
    (((charFreqMap (lit "banana")).map Prod.fst).any
        (fun k => goToLower k == goToLower 'A')) = true ∧
    matchesStructured { contains_character := some 'A' }
      ⟨lit "banana", lit "banana", analyzeString (fun x => x) (lit "banana"),
        lit "t"⟩ = false := by decide

/-! ## Claim C3: the palindrome check -/

lemma palinAux_iff (rs : Str) :
    ∀ (fuel i j : Nat), j - i ≤ 2 * fuel →
      (palinAux rs fuel i j = true ↔
        ∀ k, i ≤ k → 2 * k < i + j →
          rs.getD k (Char.ofNat 0) = rs.getD (i + j - k) (Char.ofNat 0)) := by
  intro fuel
  induction fuel with
  | zero =>
    intro i j hf
    simp only [palinAux, true_iff]
    intro k hik h2k
    omega
  | succ fuel ih =>
    intro i j hf
    by_cases hij : i < j
    · simp only [palinAux, if_pos hij]
      by_cases heq : rs.getD i (Char.ofNat 0) = rs.getD j (Char.ofNat 0)
      · rw [if_pos heq, ih (i + 1) (j - 1) (by omega)]
        constructor
        · intro H k hik h2k
          rcases Nat.eq_or_lt_of_le hik with hk | hk
          · rw [← hk]
            have hj : i + j - i = j := by omega
            rw [hj]
            exact heq
          · have hidx : i + 1 + (j - 1) - k = i + j - k := by omega
            have := H k hk (by omega)
            rwa [hidx] at this
        · intro H k hik h2k
          have hidx : i + 1 + (j - 1) - k = i + j - k := by omega
          rw [hidx]
          exact H k (by omega) (by omega)
      · rw [if_neg heq]
        simp only [Bool.false_eq_true, false_iff]
        intro H
        have := H i le_rfl (by omega)
        rw [Nat.add_sub_cancel_left] at this
        exact heq this
    · simp only [palinAux, if_neg hij, true_iff]
      intro k hik h2k
      omega

lemma getD_bridge (l : Str) :
    (∀ k, 2 * k < l.length - 1 →
        l.getD k (Char.ofNat 0) = l.getD (l.length - 1 - k) (Char.ofNat 0)) ↔
      (∀ k, k < l.length →
        l.getD k (Char.ofNat 0) = l.getD (l.length - 1 - k) (Char.ofNat 0)) := by
  constructor
  · intro H k hk
    rcases Nat.lt_trichotomy (2 * k) (l.length - 1) with h | h | h
    · exact H k h
    · have : l.length - 1 - k = k := by omega
      rw [this]
    · have h2 : 2 * (l.length - 1 - k) < l.length - 1 := by omega
      have := H (l.length - 1 - k) h2
      have hkk : l.length - 1 - (l.length - 1 - k) = k := by omega
      rw [hkk] at this
      exact this.symm
  · intro H k hk
    exact H k (by omega)

lemma eq_reverse_iff_getD (l : Str) :
    l = l.reverse ↔ ∀ k, k < l.length →
      l.getD k (Char.ofNat 0) = l.getD (l.length - 1 - k) (Char.ofNat 0) := by
  constructor
  · intro h k hk
    have hk2 : l.length - 1 - k < l.length := by omega
    have hkr : k < l.reverse.length := by simpa using hk
    have h1 : l.getD k (Char.ofNat 0) = l.reverse.getD k (Char.ofNat 0) := by
      conv_lhs => rw [h]
    rw [h1, List.getD_eq_getElem _ _ hkr, List.getD_eq_getElem _ _ hk2,
      List.getElem_reverse]
  · intro H
    apply List.ext_getElem (by rw [List.length_reverse])
    intro i h1 h2
    rw [List.getElem_reverse]
    have hi2 : l.length - 1 - i < l.length := by omega
    have := H i h1
    rw [List.getD_eq_getElem l _ h1, List.getD_eq_getElem l _ hi2] at this
    exact this

lemma isPalindrome_iff (s : Str) :
    isPalindrome s = true ↔ s.map goToLower = (s.map goToLower).reverse := by
  simp only [isPalindrome]
  rw [palinAux_iff (s.map goToLower) (s.map goToLower).length 0
    ((s.map goToLower).length - 1) (by omega)]
  rw [eq_reverse_iff_getD, ← getD_bridge]
  constructor
  · intro H k h2k
    have := H k (Nat.zero_le k) (by omega)
    simpa using this
  · intro H k _ h2k
    have := H k (by omega)
    simpa using this

/-- C3: `isPalindrome` is true exactly when the case-folded rune
sequence equals its own reverse (src/main.go:58-69); the empty string
and every single-rune string are palindromes; "Racecar" is one,
"hello" is not; and whitespace and punctuation are not stripped
("ab, ba" is rejected although its letters mirror). -/
theorem claim_C3 :
    (∀ s : Str, isPalindrome s = true ↔ s.map goToLower = (s.map goToLower).reverse) ∧
    isPalindrome [] = true ∧
    (∀ c : Char, isPalindrome [c] = true) ∧
    isPalindrome (lit "Racecar") = true ∧
    isPalindrome (lit "hello") = false ∧
    isPalindrome (lit "ab, ba") = false := by
  refine ⟨isPalindrome_iff, by decide, fun c => ?_, by decide, by decide, by decide⟩
  simp [isPalindrome, palinAux]

/-! ## Claim C4: the word count

`strings.TrimSpace` trims Unicode whitespace, but the splitting regex
`\s+` (src/main.go:76) is RE2's ASCII class `[\t\n\f\r ]` — the spec's
"Unicode whitespace" is not a delimiter. -/

lemma splitWS_cons_cons (c d : Char) (ds : Str) :
    splitWS (c :: d :: ds) =
      if re2Space c then
        (if re2Space d then splitWS (d :: ds) else [] :: splitWS (d :: ds))
      else
        match splitWS (d :: ds) with
        | t :: ts => (c :: t) :: ts
        | [] => [[c]] := rfl

lemma countRuns_cons_cons (p : Char → Bool) (c d : Char) (ds : Str) :
    countRuns p (c :: d :: ds) =
      if p c then
        (if p d then countRuns p (d :: ds) else 1 + countRuns p (d :: ds))
      else countRuns p (d :: ds) := rfl

lemma splitWS_ne_nil : ∀ t : Str, splitWS t ≠ [] := by
  intro t
  match t with
  | [] => simp [splitWS]
  | [c] =>
    by_cases hc : re2Space c <;> simp [splitWS, hc]
  | c :: d :: ds =>
    rw [splitWS_cons_cons]
    by_cases hc : re2Space c
    · by_cases hd : re2Space d <;>
        simp [hc, hd, splitWS_ne_nil (d :: ds)]
    · rcases List.exists_cons_of_ne_nil (splitWS_ne_nil (d :: ds)) with ⟨t0, ts0, hts⟩
      simp [hc, hts]

lemma length_splitWS : ∀ t : Str, (splitWS t).length = countRuns re2Space t + 1 := by
  intro t
  match t with
  | [] => simp [splitWS, countRuns]
  | [c] => by_cases hc : re2Space c <;> simp [splitWS, countRuns, hc]
  | c :: d :: ds =>
    have ih := length_splitWS (d :: ds)
    rw [splitWS_cons_cons, countRuns_cons_cons]
    by_cases hc : re2Space c
    · by_cases hd : re2Space d
      · simp only [if_pos hc, if_pos hd]
        exact ih
      · simp only [if_pos hc, if_neg hd, List.length_cons]
        omega
    · rcases List.exists_cons_of_ne_nil (splitWS_ne_nil (d :: ds)) with ⟨t0, ts0, hts⟩
      simp only [if_neg hc, hts, List.length_cons]
      rw [hts] at ih
      simp only [List.length_cons] at ih
      omega

lemma countRuns_flip (p : Char → Bool) :
    ∀ t : Str, (∀ z, t.getLast? = some z → p z = false) →
      countRuns (fun c => !p c) t =
        countRuns p t + (match t with | [] => 0 | c :: _ => if p c then 0 else 1) := by
  intro t
  match t with
  | [] => intro _; simp [countRuns]
  | [c] =>
    intro hlast
    have hc : p c = false := hlast c (by simp)
    simp [countRuns, hc]
  | c :: d :: ds =>
    intro hlast
    have ih := countRuns_flip p (d :: ds) (by
      intro z hz
      exact hlast z (by rwa [List.getLast?_cons_cons]))
    rw [countRuns_cons_cons, countRuns_cons_cons]
    by_cases hc : p c <;> by_cases hd : p d <;>
      simp only [hc, hd, Bool.not_true, Bool.not_false, if_true, if_false,
        Bool.false_eq_true, Bool.true_eq_false, if_neg, if_pos] at ih ⊢ <;>
      omega

lemma unicodeSpace_false_re2 {c : Char} (h : unicodeSpace c = false) :
    re2Space c = false := by
  cases hr : re2Space c
  · rfl
  · rw [unicodeSpace, hr] at h
    simp at h

lemma dropWhile_head_false (p : Char → Bool) :
    ∀ (l : Str) (c : Char) (cs : Str), l.dropWhile p = c :: cs → p c = false := by
  intro l
  induction l with
  | nil => intro c cs h; simp [List.dropWhile] at h
  | cons a as ih =>
    intro c cs h
    by_cases ha : p a
    · rw [List.dropWhile_cons, if_pos ha] at h
      exact ih c cs h
    · rw [List.dropWhile_cons, if_neg ha] at h
      cases h
      simpa using ha

lemma getLast?_dropWhile (p : Char → Bool) :
    ∀ l : Str, l.dropWhile p ≠ [] → (l.dropWhile p).getLast? = l.getLast? := by
  intro l
  induction l with
  | nil => intro h; simp [List.dropWhile] at h
  | cons a as ih =>
    intro h
    by_cases ha : p a
    · rw [List.dropWhile_cons, if_pos ha] at h ⊢
      have has : as ≠ [] := by
        intro he
        rw [he] at h
        simp [List.dropWhile] at h
      rw [ih h]
      obtain ⟨d, ds, rfl⟩ := List.exists_cons_of_ne_nil has
      rw [List.getLast?_cons_cons]
    · rw [List.dropWhile_cons, if_neg ha]

lemma trimSpace_head (s : Str) (c : Char) (cs : Str) (h : trimSpace s = c :: cs) :
    unicodeSpace c = false := by
  have hne : (((s.dropWhile unicodeSpace).reverse).dropWhile unicodeSpace) ≠ [] := by
    intro he
    rw [trimSpace, he] at h
    simp at h
  have h1 : (((s.dropWhile unicodeSpace).reverse).dropWhile unicodeSpace).getLast? =
      ((s.dropWhile unicodeSpace).reverse).getLast? := getLast?_dropWhile _ _ hne
  have h2 : ((s.dropWhile unicodeSpace).reverse).getLast? =
      (s.dropWhile unicodeSpace).head? := List.getLast?_reverse _
  have h3 : (trimSpace s).head? = some c := by rw [h]; rfl
  rw [trimSpace, List.head?_reverse, h1, h2] at h3
  rcases hd : s.dropWhile unicodeSpace with _ | ⟨c', cs'⟩
  · rw [hd] at h3; simp at h3
  · rw [hd] at h3
    simp only [List.head?_cons, Option.some.injEq] at h3
    rw [← h3]
    exact dropWhile_head_false unicodeSpace s c' cs' hd

lemma trimSpace_last (s : Str) (z : Char) (h : (trimSpace s).getLast? = some z) :
    unicodeSpace z = false := by
  rw [trimSpace, List.getLast?_reverse] at h
  rcases hd : ((s.dropWhile unicodeSpace).reverse).dropWhile unicodeSpace with _ | ⟨c', cs'⟩
  · rw [hd] at h; simp at h
  · rw [hd] at h
    simp only [List.head?_cons, Option.some.injEq] at h
    rw [← h]
    exact dropWhile_head_false unicodeSpace _ c' cs' hd

lemma wordCount_eq_countRuns (s : Str) :
    wordCount s = countRuns (fun c => !re2Space c) (trimSpace s) := by
  rcases ht : trimSpace s with _ | ⟨c, cs⟩
  · simp [wordCount, ht, countRuns]
  · have hhead : re2Space c = false := unicodeSpace_false_re2 (trimSpace_head s c cs ht)
    have hlast : ∀ z, (c :: cs).getLast? = some z → re2Space z = false := by
      intro z hz
      exact unicodeSpace_false_re2 (trimSpace_last s z (by rw [ht]; exact hz))
    have hflip := countRuns_flip re2Space (c :: cs) hlast
    simp only [wordCount, ht, List.cons_ne_nil, if_false, reduceCtorEq]
    rw [length_splitWS (c :: cs)]
    simp only [hhead, Bool.false_eq_true, if_false] at hflip
    omega

/-- C4 (amended): `wordCount` is the number of tokens of the trimmed
string delimited by runs of RE2's ASCII whitespace class
`[\t\n\f\r ]` — trimming strips Unicode whitespace, but the splitting
delimiter does not include the non-ASCII whitespace the spec names; the
spec's examples hold. -/
theorem claim_C4_amended :
    (∀ s : Str, wordCount s = countRuns (fun c => !re2Space c) (trimSpace s)) ∧
    wordCount (lit "") = 0 ∧
    wordCount (lit "   ") = 0 ∧
    wordCount (lit "  a   b  ") = 2 :=
  ⟨wordCount_eq_countRuns, by decide, by decide, by decide⟩

/-- C4, as stated, fails on "a‹NBSP›b": U+00A0 is Unicode whitespace,
so the spec's reading gives two tokens, but the code's `\s+` split
leaves one. -/
theorem claim_C4_counterexample :
    wordCount ['a', Char.ofNat 0xA0, 'b'] = 1 ∧
    specWordCount ['a', Char.ofNat 0xA0, 'b'] = 2 := by decide

/-! ## Claim C2: creation is not an atomic check-and-set

The existence check runs under the read lock (src/main.go:127-129),
which is released before the insert takes the write lock
(src/main.go:141-143).  Two concurrent creates of the same value can
therefore both observe "absent" and both respond 201 Created; the
store still ends with one record only because both writes hit the same
key. -/

/-- C2 fails on the code: under the interleaving check₁, check₂,
insert₁, insert₂ of two concurrent creates of "x" on an empty store,
both requests finish with 201 Created (so zero `AlreadyExists`
outcomes, where the claim demands exactly one), while the serialized
schedule check₁, insert₁, check₂, check₂-respond yields one Created
and one Conflict; in both runs a single record is stored. -/
theorem claim_C2_race :
    (runSched (fun s => s) (lit "x") (lit "t") [false, true, false, true]
        ([], .ready, .ready)).2.1 = ThreadState.finished true ∧
    (runSched (fun s => s) (lit "x") (lit "t") [false, true, false, true]
        ([], .ready, .ready)).2.2 = ThreadState.finished true ∧
    (runSched (fun s => s) (lit "x") (lit "t") [false, true, false, true]
        ([], .ready, .ready)).1.length = 1 ∧
    (runSched (fun s => s) (lit "x") (lit "t") [false, false, true, true]
        ([], .ready, .ready)).2 = (ThreadState.finished true, ThreadState.finished false) := by
  refine ⟨by decide, by decide, by decide, by decide⟩

/-! ## Claim C7: failing operations leave the store unchanged -/

/-- C7: a create that reports any error (validation failure or
`AlreadyExists`) returns the store it was given, unmodified
(src/main.go:110-133); and a failed natural-language translation is
surfaced as that specific error, with no records returned
(src/main.go:437-441). -/
theorem claim_C7 :
    (∀ (hash : Str → Str) (st : Store) (body : Option JVal) (now : Str),
        isErrRes (createRecord hash st body now).2 = true →
        (createRecord hash st body now).1 = st) ∧
    (∀ (st : Store) (q : Str) (e : ParseError),
        parseNaturalLanguage q = .error e → nlQuery st q = .error e) := by
  constructor
  · intro hash st body now h
    rcases hv : validateCreateBody body with e | val
    · simp [createRecord, hv]
    · cases hex : keyIn st (analyzeString hash val).SHA256Hash
      · simp [createRecord, hv, hex, isErrRes] at h
      · simp [createRecord, hv, hex]
  · intro st q e h
    rw [nlQuery, h]

/-- C7 at concrete inputs: re-creating an already stored "x" reports an
error and leaves the one-record store intact, and the untranslatable
query "zzz" is answered with its failure reason and no records. -/
theorem claim_C7_witness :
    (createRecord (fun x => x)
        (createRecord (fun x => x) [] (some (.jstr (lit "x"))) (lit "t")).1
        (some (.jstr (lit "x"))) (lit "t")).1 =
      (createRecord (fun x => x) [] (some (.jstr (lit "x"))) (lit "t")).1 ∧
    nlQuery [] (lit "zzz") = .error .unparseable :=
  ⟨claim_C7.1 (fun x => x) _ (some (.jstr (lit "x"))) (lit "t") (by decide),
    claim_C7.2 [] (lit "zzz") .unparseable (by decide)⟩


/-! ## Claims C5, C6, C9: the translator's output and failure modes -/

set_option maxHeartbeats 2000000 in
lemma buildParsed_eq (q : Str) :
    buildParsed q =
      ({ word_count := wcF q, is_palindrome := palF q, min_length := minF q,
         max_length := none, contains_character := containsF q } : ParsedFilters) := by
  cases h1 : (containsSub (lit "single word") q || containsSub (lit "single-word") q ||
      containsSub (lit "one word") q) <;>
  cases h2 : containsSub (lit "palindrom") q <;>
  cases h5 : (containsSub (lit "first vowel") q || containsSub (lit "first vowel a") q) <;>
  rcases h3 : findLonger q with _ | d3 <;>
  rcases h4 : findLongerChars q with _ | d4 <;>
  rcases h6 : findContains q with _ | c6 <;>
  rcases h7 : findNWord none q with _ | d7 <;>
  simp only [buildParsed, wcF, palF, minF, containsF, minLengthRule,
    h1, h2, h3, h4, h5, h6, h7, Option.isNone_none, Option.isNone_some,
    Option.map_some, Option.map_none, if_true, if_false, Bool.false_eq_true,
    Bool.true_eq_false] <;>
  (repeat' split) <;>
  simp_all

lemma wrap64_small {k : Int} (h0 : 0 ≤ k) (h1 : k ≤ 9223372036854775807) :
    wrap64 k = k := by
  rw [wrap64]
  omega

theorem claim_C9 (query : Str) : isConflictErr (parseNaturalLanguage query) = false := by
  simp only [parseNaturalLanguage]
  by_cases hq : normQ query = []
  · simp [hq, isConflictErr]
  · simp only [if_neg hq]
    by_cases hemp : parsedIsEmpty (buildParsed (normQ query)) = true
    · simp [hemp, isConflictErr]
    · rw [Bool.not_eq_true] at hemp
      simp only [hemp, Bool.false_eq_true, if_false]
      have hmax : (buildParsed (normQ query)).max_length = none := by rw [buildParsed_eq]
      rw [hmax]
      rcases hmin : (buildParsed (normQ query)).min_length with _ | mn <;> rfl

theorem claim_C6 (query : Str) :
    (parseNaturalLanguage query = .error .emptyQuery ↔ normQ query = []) ∧
    (parseNaturalLanguage query = .error .unparseable ↔
      (normQ query ≠ [] ∧ wcF (normQ query) = none ∧ palF (normQ query) = none ∧
        minF (normQ query) = none ∧ containsF (normQ query) = none)) ∧
    (∀ f : ParsedFilters, parseNaturalLanguage query = .ok f → parsedIsEmpty f = false) := by
  by_cases hq : normQ query = []
  · have hp : parseNaturalLanguage query = .error .emptyQuery := by
      simp [parseNaturalLanguage, hq]
    refine ⟨by simp [hp, hq], by simp [hp, hq], fun f hf => ?_⟩
    rw [hp] at hf
    exact absurd hf (by simp)
  · by_cases hemp : parsedIsEmpty (buildParsed (normQ query)) = true
    · have hp : parseNaturalLanguage query = .error .unparseable := by
        simp [parseNaturalLanguage, hq, hemp]
      have hfields := hemp
      rw [buildParsed_eq] at hfields
      simp only [parsedIsEmpty, Bool.and_eq_true, Option.isNone_iff_eq_none] at hfields
      refine ⟨by simp [hp, hq], ?_, fun f hf => ?_⟩
      · constructor
        · intro _
          exact ⟨hq, hfields.1.1.1.1, hfields.1.1.1.2, hfields.1.1.2, hfields.2⟩
        · intro _
          exact hp
      · rw [hp] at hf
        exact absurd hf (by simp)
    · have hmax : (buildParsed (normQ query)).max_length = none := by rw [buildParsed_eq]
      rw [Bool.not_eq_true] at hemp
      have hp : parseNaturalLanguage query = .ok (buildParsed (normQ query)) := by
        simp only [parseNaturalLanguage, if_neg hq, hemp, Bool.false_eq_true, if_false]
        rw [hmax]
        rcases hmin : (buildParsed (normQ query)).min_length with _ | mn <;> rfl
      refine ⟨by simp [hp, hq], ⟨by simp [hp], ?_⟩, fun f hf => ?_⟩
      · rintro ⟨_, h1, h2, h3, h4⟩
        have : parsedIsEmpty (buildParsed (normQ query)) = true := by
          rw [buildParsed_eq]
          simp [parsedIsEmpty, h1, h2, h3, h4]
        rw [this] at hemp
        exact absurd hemp (by simp)
      · rw [hp] at hf
        have hfe : f = buildParsed (normQ query) := by
          have := hf.symm
          simpa using this
        rw [hfe]
        exact hemp

theorem claim_C5_amended (q d : Str)
    (h1 : findLonger (normQ q) = some d)
    (h2 : findLongerChars (normQ q) = none ∨ findLongerChars (normQ q) = some d)
    (h3 : digitsVal d + 1 ≤ 9223372036854775807) :
    parseNaturalLanguage q = .ok (buildParsed (normQ q)) ∧
    (buildParsed (normQ q)).min_length = some ((digitsVal d : Int) + 1) ∧
    parseNaturalLanguage (lit "strings longer than 5 characters containing the letter r") =
      .ok { min_length := some 6, contains_character := some (lit "r") } := by
  have hatoi : goAtoiDigits d = some (digitsVal d) := by
    rw [goAtoiDigits, if_pos (by omega)]
  have hwrap : wrap64 ((digitsVal d : Int) + 1) = (digitsVal d : Int) + 1 :=
    wrap64_small (by positivity) (by exact_mod_cast h3)
  have hmin : minF (normQ q) = some ((digitsVal d : Int) + 1) := by
    rcases h2 with h2 | h2
    · rw [minF, h2, h1]
      simp [minLengthRule, hatoi, hwrap]
    · rw [minF, h2]
      simp [minLengthRule, hatoi, hwrap]
  have hminp : (buildParsed (normQ q)).min_length = some ((digitsVal d : Int) + 1) := by
    rw [buildParsed_eq]
    exact hmin
  have hq : normQ q ≠ [] := by
    intro he
    rw [he] at h1
    simp [findLonger] at h1
  have hemp : parsedIsEmpty (buildParsed (normQ q)) = false := by
    rw [buildParsed_eq]
    simp [parsedIsEmpty, hmin]
  have hmax : (buildParsed (normQ q)).max_length = none := by rw [buildParsed_eq]
  refine ⟨?_, hminp, by decide⟩
  simp only [parseNaturalLanguage, if_neg hq, hemp, Bool.false_eq_true, if_false]
  rw [hmax, hminp]

theorem claim_C5_witness :
    parseNaturalLanguage (lit "strings longer than 5 characters containing the letter r") =
      .ok (buildParsed (normQ (lit "strings longer than 5 characters containing the letter r"))) ∧
    (buildParsed (normQ
        (lit "strings longer than 5 characters containing the letter r"))).min_length =
      some ((digitsVal (lit "5") : Int) + 1) :=
  ⟨(claim_C5_amended (lit "strings longer than 5 characters containing the letter r")
      (lit "5") (by decide) (Or.inr (by decide)) (by decide)).1,
   (claim_C5_amended (lit "strings longer than 5 characters containing the letter r")
      (lit "5") (by decide) (Or.inr (by decide)) (by decide)).2.1⟩

theorem claim_C5_counterexample :
    parseNaturalLanguage (lit "longer than 7 and longer than 3") =
      .ok { min_length := some 8 } ∧
    ({ min_length := some 8 } : ParsedFilters).min_length ≠ some ((3 : Int) + 1) :=
  ⟨by decide, by decide⟩

/-- C6 at concrete inputs: "xyz123" matches no rule and is rejected as
unparseable, and the filter produced for "a palindrome" is non-empty. -/
theorem claim_C6_witness :
    parseNaturalLanguage (lit "xyz123") = .error .unparseable ∧
    parsedIsEmpty { is_palindrome := some true } = false :=
  ⟨(claim_C6 (lit "xyz123")).2.1.mpr
      ⟨by decide, by decide, by decide, by decide, by decide⟩,
   (claim_C6 (lit "a palindrome")).2.2 { is_palindrome := some true } (by decide)⟩
